import Mathlib

/-!
Shallow embedding of the db_cache library (db_cache/caches.py and
db_cache/utils.py): a dictionary-like cache storing rows in a single
database table, with a TTL variant.

The database table is modelled as a `List` of rows; the unique index on the
key column is the invariant `keysNodup`.  The storage session is modelled by
the outcome of its queries: `rowsWithKey` embeds
`session.query(entry_cls).filter_by(key=k)`, and each public operation of
`DBCache` / `TTLDBCache` is translated into a function of the row list.  The
row type is kept generic (the source passes `entry_cls` around): base rows
are pairs `K × V`, TTL rows are triples `K × V × Int` carrying the created
timestamp.  A `Bool` parameter `avail` models whether the storage layer is
reachable: when it is `false`, a query raises `OperationalError`
(`DBErr.operationalError`), which is how SQLAlchemy reports a transiently
unavailable table.  Time is explicit: operations of the TTL cache take the
current unix timestamp `now` (the value of `int(time.time())`).
-/

/-- Errors of the embedded operations: `KeyError` as raised by the mapping
contract, plus the two SQLAlchemy error types that a read can surface:
`OperationalError` and `MultipleResultsFound`. -/
inductive DBErr (K : Type) where
  | keyError (k : K)
  | operationalError
  | multipleResultsFound
deriving DecidableEq, Repr

/-- Outcome of `session.query(entry_cls).filter_by(key=k).one()`:
exactly one row, no row (`NoResultFound`), storage unreachable
(`OperationalError`), or more than one row (`MultipleResultsFound`). -/
inductive QRes (E : Type) where
  | found (e : E)
  | noResult
  | opErr
  | multiple
deriving DecidableEq, Repr

/-- The rows returned by `session.query(entry_cls).filter_by(key=k)`:
row lookup by exact key equality. -/
def rowsWithKey {E K : Type} [DecidableEq K] (keyOf : E → K) (rows : List E) (k : K) : List E :=
  rows.filter (fun e => decide (keyOf e = k))

/-- Whether some row with the given key exists in the table. -/
def hasKey {E K : Type} [DecidableEq K] (keyOf : E → K) (rows : List E) (k : K) : Bool :=
  rows.any (fun e => decide (keyOf e = k))

/-- The unique index on the key column (`key = Column(..., unique=True)`):
no two rows share a key. -/
def keysNodup {E K : Type} (keyOf : E → K) (rows : List E) : Prop :=
  (rows.map keyOf).Nodup

instance {E K : Type} [DecidableEq K] (keyOf : E → K) (rows : List E) :
    Decidable (keysNodup keyOf rows) :=
  List.nodupDecidable _

/-- Embeds `query(...).filter_by(key=k).one()` with availability of the
storage layer made explicit. -/
def queryOne {E K : Type} [DecidableEq K] (keyOf : E → K) (avail : Bool) (rows : List E)
    (k : K) : QRes E :=
  if avail then
    match rowsWithKey keyOf rows k with
    | [] => .noResult
    | [e] => .found e
    | _ :: _ :: _ => .multiple
  else .opErr

/-- Embeds `session.merge(entry)` followed by `commit()`: an upsert keyed by
the primary key — if a row with the same key as the entry exists its fields are
replaced in place, otherwise the row is appended. -/
def sessionMerge {E K : Type} [DecidableEq K] (keyOf : E → K) (entry : E) (rows : List E) :
    List E :=
  if hasKey keyOf rows (keyOf entry) then
    rows.map (fun e => if keyOf e = keyOf entry then entry else e)
  else
    rows ++ [entry]

/-- DBCache.__getitem__: `query(...).filter_by(key=item).one().value`, with
`NoResultFound` and `OperationalError` both translated to `KeyError(item)`;
any other error (i.e. `MultipleResultsFound`) is not caught. -/
def dbGetitem {E K V : Type} [DecidableEq K] (keyOf : E → K) (valOf : E → V) (avail : Bool)
    (rows : List E) (k : K) : Except (DBErr K) V :=
  match queryOne keyOf avail rows k with
  | .found e => .ok (valOf e)
  | .noResult => .error (.keyError k)
  | .opErr => .error (.keyError k)
  | .multiple => .error .multipleResultsFound

/-- DBCache.__contains__: `query(...).filter_by(key=item).scalar()` coerced
to a truth value by the `in` protocol.  There is no try/except here: a
storage-layer error propagates to the caller. -/
def dbContains {E K : Type} [DecidableEq K] (keyOf : E → K) (avail : Bool) (rows : List E)
    (k : K) : Except (DBErr K) Bool :=
  if avail then
    match rowsWithKey keyOf rows k with
    | [] => .ok false
    | [_] => .ok true
    | _ :: _ :: _ => .error .multipleResultsFound
  else .error .operationalError

/-- DBCache.__delitem__: look the row up with `.one()` and delete it;
`NoResultFound` and `OperationalError` are translated to `KeyError(key)`. -/
def dbDelitem {E K : Type} [DecidableEq K] (keyOf : E → K) (avail : Bool) (rows : List E)
    (k : K) : Except (DBErr K) (List E) :=
  match queryOne keyOf avail rows k with
  | .found _ => .ok (rows.filter (fun e => decide (¬ keyOf e = k)))
  | .noResult => .error (.keyError k)
  | .opErr => .error (.keyError k)
  | .multiple => .error .multipleResultsFound

/-- DBCache.__len__: `query(entry_cls).count()`. -/
def dbLen {E : Type} (rows : List E) : Nat :=
  rows.length

/-- DBCache.keys: the keys of all rows, in table order. -/
def dbKeys {E K : Type} (keyOf : E → K) (rows : List E) : List K :=
  rows.map keyOf

/-- DBCache.values: the values of all rows, in table order. -/
def dbValues {E V : Type} (valOf : E → V) (rows : List E) : List V :=
  rows.map valOf

/-- DBCache.items: the key, value pairs of all rows, in table order. -/
def dbItems {E K V : Type} (keyOf : E → K) (valOf : E → V) (rows : List E) : List (K × V) :=
  rows.map (fun e => (keyOf e, valOf e))

/-- DBCache.get: `self[item]` with `KeyError` caught and the default
returned instead.  The default parameter itself defaults to `None`, which is
modelled by `Option V` (`none` is the Python None).  Errors other than
`KeyError` are not caught. -/
def dbGet {E K V : Type} [DecidableEq K] (keyOf : E → K) (valOf : E → V) (avail : Bool)
    (rows : List E) (k : K) (default : Option V) : Except (DBErr K) (Option V) :=
  match dbGetitem keyOf valOf avail rows k with
  | .ok v => .ok (some v)
  | .error (.keyError _) => .ok default
  | .error e => .error e

/-- DBCache.pop: read `self[key]`; on `KeyError` re-raise it when no default
was supplied (`default is _NotSet`, modelled by `none`), else return the
default; on success delete the row and return the value. -/
def dbPop {E K V : Type} [DecidableEq K] (keyOf : E → K) (valOf : E → V) (avail : Bool)
    (rows : List E) (k : K) (default : Option V) : Except (DBErr K) (V × List E) :=
  match dbGetitem keyOf valOf avail rows k with
  | .ok v =>
    match dbDelitem keyOf avail rows k with
    | .ok rows2 => .ok (v, rows2)
    | .error e => .error e
  | .error (.keyError k2) =>
    match default with
    | none => .error (.keyError k2)
    | some d => .ok (d, rows)
  | .error e => .error e

/-- DBCache.update: merge every pair of the mapping, then commit once. -/
def dbUpdate {E K V : Type} [DecidableEq K] (keyOf : E → K) (mk : K → V → E) (rows : List E)
    (data : List (K × V)) : List E :=
  data.foldl (fun acc p => sessionMerge keyOf (mk p.1 p.2) acc) rows

/-- Base cache rows (DBCacheEntry): a key, value pair. -/
abbrev BEntry (K V : Type) := K × V

/-- DBCache.__setitem__ on base rows: build the entry and merge it. -/
def baseSetitem {K V : Type} [DecidableEq K] (rows : List (BEntry K V)) (k : K) (v : V) :
    List (BEntry K V) :=
  sessionMerge Prod.fst (k, v) rows

/-- DBCache.__getitem__ on base rows. -/
def baseGetitem {K V : Type} [DecidableEq K] (avail : Bool) (rows : List (BEntry K V)) (k : K) :
    Except (DBErr K) V :=
  dbGetitem Prod.fst Prod.snd avail rows k

/-- DBCache.__contains__ on base rows. -/
def baseContains {K V : Type} [DecidableEq K] (avail : Bool) (rows : List (BEntry K V))
    (k : K) : Except (DBErr K) Bool :=
  dbContains Prod.fst avail rows k

/-- DBCache.__delitem__ on base rows. -/
def baseDelitem {K V : Type} [DecidableEq K] (avail : Bool) (rows : List (BEntry K V)) (k : K) :
    Except (DBErr K) (List (BEntry K V)) :=
  dbDelitem Prod.fst avail rows k

/-- DBCache.__len__ on base rows. -/
def baseLen {K V : Type} (rows : List (BEntry K V)) : Nat :=
  dbLen rows

/-- DBCache.keys on base rows. -/
def baseKeys {K V : Type} (rows : List (BEntry K V)) : List K :=
  dbKeys Prod.fst rows

/-- DBCache.get on base rows. -/
def baseGet {K V : Type} [DecidableEq K] (avail : Bool) (rows : List (BEntry K V)) (k : K)
    (default : Option V) : Except (DBErr K) (Option V) :=
  dbGet Prod.fst Prod.snd avail rows k default

/-- DBCache.pop on base rows. -/
def basePop {K V : Type} [DecidableEq K] (avail : Bool) (rows : List (BEntry K V)) (k : K)
    (default : Option V) : Except (DBErr K) (V × List (BEntry K V)) :=
  dbPop Prod.fst Prod.snd avail rows k default

/-- DBCache.update on base rows. -/
def baseUpdate {K V : Type} [DecidableEq K] (rows : List (BEntry K V)) (data : List (K × V)) :
    List (BEntry K V) :=
  dbUpdate Prod.fst (fun k v => (k, v)) rows data

/-- TTL cache rows (TTLDBCacheEntry): key, value and created timestamp. -/
abbrev TEntry (K V : Type) := K × V × Int

/-- Value column of a TTL row. -/
def tVal {K V : Type} (e : TEntry K V) : V :=
  e.2.1

/-- Created column of a TTL row. -/
def tCreated {K V : Type} (e : TEntry K V) : Int :=
  e.2.2

/-- TTLDBCache.expire: delete every row whose created timestamp is strictly
below the expiration threshold; the threshold defaults to `now - ttl`. -/
def expire {K V : Type} (ttl now : Int) (expiration : Option Int) (rows : List (TEntry K V)) :
    List (TEntry K V) :=
  let threshold := expiration.getD (now - ttl)
  rows.filter (fun e => decide (¬ tCreated e < threshold))

/-- The sweep that TTLDBCache.__enter__ runs before every public operation:
`expire()` with the default threshold `now - ttl`. -/
def ttlSweep {K V : Type} (ttl now : Int) (rows : List (TEntry K V)) : List (TEntry K V) :=
  expire ttl now none rows

/-- TTLDBCache read of one key: sweep first (TTLDBCache.__enter__), then the
inherited DBCache.__getitem__. -/
def ttlGetitem {K V : Type} [DecidableEq K] (ttl now : Int) (rows : List (TEntry K V)) (k : K) :
    Except (DBErr K) V :=
  dbGetitem Prod.fst tVal true (ttlSweep ttl now rows) k

/-- TTLDBCache membership test: sweep first, then DBCache.__contains__. -/
def ttlContains {K V : Type} [DecidableEq K] (ttl now : Int) (rows : List (TEntry K V))
    (k : K) : Except (DBErr K) Bool :=
  dbContains Prod.fst true (ttlSweep ttl now rows) k

/-- TTLDBCache length: sweep first, then DBCache.__len__. -/
def ttlLen {K V : Type} (ttl now : Int) (rows : List (TEntry K V)) : Nat :=
  dbLen (ttlSweep ttl now rows)

/-- TTLDBCache key iteration: sweep first, then DBCache.keys. -/
def ttlKeys {K V : Type} (ttl now : Int) (rows : List (TEntry K V)) : List K :=
  dbKeys Prod.fst (ttlSweep ttl now rows)

/-- TTLDBCache.__setitem__: sweep first, then merge the entry stamped with
the current time. -/
def ttlSetitem {K V : Type} [DecidableEq K] (ttl now : Int) (rows : List (TEntry K V)) (k : K)
    (v : V) : List (TEntry K V) :=
  sessionMerge Prod.fst (k, v, now) (ttlSweep ttl now rows)

/-- TTLDBCache delete: sweep first, then DBCache.__delitem__. -/
def ttlDelitem {K V : Type} [DecidableEq K] (ttl now : Int) (rows : List (TEntry K V)) (k : K) :
    Except (DBErr K) (List (TEntry K V)) :=
  dbDelitem Prod.fst true (ttlSweep ttl now rows) k

/-- TTLDBCache.update: sweep first, then merge every pair stamped with the
current time, then commit. -/
def ttlUpdate {K V : Type} [DecidableEq K] (ttl now : Int) (rows : List (TEntry K V))
    (data : List (K × V)) : List (TEntry K V) :=
  dbUpdate Prod.fst (fun k v => (k, v, now)) (ttlSweep ttl now rows) data

/-! Embedding of the on-disk rotation cleanup (DBCache._prep_storage and
DBCache._cleanup_old_dbs).  A directory is a list of entries; failures of
the filesystem layer are modelled per entry: statError means Path.is_file
raises OSError, unlinkError means Path.unlink raises OSError (both are
caught, logged, and the scan continues). -/

structure DirEntry where
  name : String
  isFile : Bool
  statError : Bool
  unlinkError : Bool
deriving DecidableEq, Repr

/-- Whether a file name matches the glob pattern used by
DBCache._cleanup_old_dbs, namely the db file prefix (the cache prefix plus
a trailing dot) followed by a star followed by the literal suffix .db: the
name starts with the db file prefix, ends with .db, and the two occurrences
do not overlap. -/
def globOldDb (pre : String) (nm : String) : Bool :=
  pre.data.isPrefixOf nm.data && ".db".data.isSuffixOf nm.data &&
    decide (pre.data.length + 3 ≤ nm.data.length)

/-- Per candidate processing of DBCache._cleanup_old_dbs: a glob-matched
entry is actually unlinked exactly when its name differs from the current
db file name, Path.is_file neither raises nor returns false, and
Path.unlink does not raise; an OSError is caught, logged, and the scan
continues with the remaining entries. -/
def cleanupDeletes (currentDb : String) (e : DirEntry) : Bool :=
  decide (¬ e.name = currentDb) && !e.statError && e.isFile && !e.unlinkError

/-- DBCache._cleanup_old_dbs: the directory contents surviving the scan. -/
def cleanup_old_dbs (pre : String) (currentDb : String) (dir : List DirEntry) :
    List DirEntry :=
  dir.filter (fun e => !(globOldDb pre e.name && cleanupDeletes currentDb e))

/-- The current db file name computed by DBCache._prep_storage: prefix, dot,
formatted timestamp, dot, db. -/
def currentDbName (pre stamp : String) : String :=
  pre ++ "." ++ stamp ++ ".db"

/-- The directory-mutating part of DBCache._prep_storage: with an explicit
db_path the cache directory is not managed at all; otherwise the old
generation files are removed unless preserve_old is set. -/
def prep_cleanup (pre : String) (preserveOld : Bool) (dbPath : Option String) (stamp : String)
    (dir : List DirEntry) : List DirEntry :=
  match dbPath with
  | some _ => dir
  | none =>
    if preserveOld then dir
    else cleanup_old_dbs (pre ++ ".") (currentDbName pre stamp) dir

/-! Embedding of the cache key canonicalizer (_CacheKey).  Key tuples hold
Python values; the universe KElem covers the values the claims need,
including the _CacheKey class object itself, which _to_tuple inserts as a
separator before the keyword segment. -/

inductive KElem where
  | pyStr (s : String)
  | pyInt (n : Int)
  | pyNone
  | recvObj (n : Nat)
  | classObj
deriving DecidableEq, Repr

/-- Strict lexicographic comparison of strings as lists of code points:
the str less-than of Python. -/
def strLtB : List Char → List Char → Bool
  | _, [] => false
  | [], _ :: _ => true
  | a :: as, b :: bs => decide (a < b) || (decide (a = b) && strLtB as bs)

/-- Comparison used by sorted(kwargs.items()): item tuples are ordered by
their name component first.  Python would compare the value components only
when two names are equal, which cannot happen for keyword arguments (dict
keys are unique), so the name ordering decides everything on the domain the
canonicalizer is used on. -/
def pairLeB (a b : String × KElem) : Bool :=
  decide (a.1 = b.1) || strLtB a.1.data b.1.data

/-- The call sorted(kwargs.items()). -/
def sortPairs (l : List (String × KElem)) : List (String × KElem) :=
  List.insertionSort (fun a b => pairLeB a b = true) l

/-- CacheKey._to_tuple: the positional arguments alone when there are no
keyword arguments; otherwise the positional arguments, then the class
object separator, then the sorted keyword items flattened to
name, value, name, value (this is sum(sorted(kwargs.items()), (cls,))). -/
def to_tuple (args : List KElem) (kwargs : List (String × KElem)) : List KElem :=
  match kwargs with
  | [] => args
  | _ :: _ =>
    args ++ KElem.classObj :: (sortPairs kwargs).flatMap (fun p => [KElem.pyStr p.1, p.2])

/-- Hash of one tuple element (a model of the per-object hash of Python). -/
def elemHash : KElem → Nat
  | .pyStr s => 7 + 31 * s.data.foldl (fun h c => h * 31 + c.toNat) 0
  | .pyInt n => 11 + 31 * n.natAbs + (if n < 0 then 13 else 0)
  | .pyNone => 17
  | .recvObj n => 19 + 31 * n
  | .classObj => 23

/-- Hash of a key tuple: a model of the tuple hash of Python, a pure function of
the element sequence, so equal tuples hash equal. -/
def keyHash (vals : List KElem) : Nat :=
  vals.foldl (fun h e => h * 1000003 + elemHash e) 5381

/-- A _CacheKey instance: the slots _vals and _hash. -/
structure CacheKey where
  vals : List KElem
  hsh : Nat
deriving DecidableEq, Repr

/-- CacheKey.__init__: store the tuple and its hash computed from it. -/
def mkCacheKey (tup : List KElem) : CacheKey :=
  ⟨tup, keyHash tup⟩

/-- CacheKey.__eq__ applied to another cache key: structural equality of the
stored tuples. -/
def ckEq (a b : CacheKey) : Bool :=
  decide (a.vals = b.vals)

/-- CacheKey.simple_noself: drop the first positional argument and
canonicalize the rest. -/
def simple_noself (args : List KElem) (kwargs : List (String × KElem)) : CacheKey :=
  mkCacheKey (to_tuple args.tail kwargs)

/-! Lemmas about the embedded storage layer. -/

theorem mem_rowsWithKey {E K : Type} [DecidableEq K] (keyOf : E → K) (rows : List E) (k : K)
    (e : E) : e ∈ rowsWithKey keyOf rows k ↔ e ∈ rows ∧ keyOf e = k := by
  simp [rowsWithKey, List.mem_filter]

theorem rowsWithKey_eq_nil_iff {E K : Type} [DecidableEq K] (keyOf : E → K) (rows : List E)
    (k : K) : rowsWithKey keyOf rows k = [] ↔ ∀ e ∈ rows, keyOf e ≠ k := by
  simp [rowsWithKey, List.filter_eq_nil_iff]

theorem hasKey_eq_false_iff {E K : Type} [DecidableEq K] (keyOf : E → K) (rows : List E)
    (k : K) : hasKey keyOf rows k = false ↔ ∀ e ∈ rows, keyOf e ≠ k := by
  simp [hasKey]

theorem hasKey_eq_false_iff_rowsWithKey {E K : Type} [DecidableEq K] (keyOf : E → K)
    (rows : List E) (k : K) : hasKey keyOf rows k = false ↔ rowsWithKey keyOf rows k = [] := by
  rw [hasKey_eq_false_iff, rowsWithKey_eq_nil_iff]

theorem rowsWithKey_nodup_cases {E K : Type} [DecidableEq K] (keyOf : E → K) (rows : List E)
    (hnd : keysNodup keyOf rows) (k : K) :
    rowsWithKey keyOf rows k = [] ∨ ∃ e, rowsWithKey keyOf rows k = [e] ∧ keyOf e = k := by
  induction rows with
  | nil => exact Or.inl rfl
  | cons a l ih =>
    have hnd2 : keysNodup keyOf l := by
      have := hnd
      rw [keysNodup, List.map_cons, List.nodup_cons] at this
      exact this.2
    have hka : keyOf a ∉ l.map keyOf := by
      have := hnd
      rw [keysNodup, List.map_cons, List.nodup_cons] at this
      exact this.1
    by_cases hk : keyOf a = k
    · refine Or.inr ⟨a, ?_, hk⟩
      have htail : rowsWithKey keyOf l k = [] := by
        rw [rowsWithKey_eq_nil_iff]
        intro e he
        intro hek
        exact hka (List.mem_map.mpr ⟨e, he, by rw [hek, hk]⟩)
      simp [rowsWithKey, List.filter_cons, hk] at htail ⊢
      exact htail
    · have : rowsWithKey keyOf (a :: l) k = rowsWithKey keyOf l k := by
        simp [rowsWithKey, List.filter_cons, hk]
      rw [this]
      exact ih hnd2

theorem keyOf_replace {E K : Type} [DecidableEq K] (keyOf : E → K) (entry : E) (e : E) :
    keyOf (if keyOf e = keyOf entry then entry else e) = keyOf e := by
  by_cases he : keyOf e = keyOf entry
  · simp [he]
  · simp [he]

theorem rowsWithKey_map_replace {E K : Type} [DecidableEq K] (keyOf : E → K) (entry : E)
    (rows : List E) (k : K) :
    rowsWithKey keyOf (rows.map (fun e => if keyOf e = keyOf entry then entry else e)) k =
      (rowsWithKey keyOf rows k).map (fun e => if keyOf e = keyOf entry then entry else e) := by
  rw [rowsWithKey, List.filter_map, rowsWithKey]
  refine congrArg _ (List.filter_congr ?_)
  intro e _
  simp [Function.comp, keyOf_replace keyOf entry e]

theorem rowsWithKey_sessionMerge {E K : Type} [DecidableEq K] (keyOf : E → K) (entry : E)
    (rows : List E) (hnd : keysNodup keyOf rows) (k : K) :
    rowsWithKey keyOf (sessionMerge keyOf entry rows) k =
      if k = keyOf entry then [entry] else rowsWithKey keyOf rows k := by
  by_cases hhk : hasKey keyOf rows (keyOf entry) = true
  · have hmerge : sessionMerge keyOf entry rows =
        rows.map (fun e => if keyOf e = keyOf entry then entry else e) := by
      rw [sessionMerge, if_pos hhk]
    rw [hmerge, rowsWithKey_map_replace]
    by_cases hk : k = keyOf entry
    · rw [if_pos hk]
      rcases rowsWithKey_nodup_cases keyOf rows hnd k with hnil | ⟨x, hx, hxk⟩
      · exfalso
        have hfalse : hasKey keyOf rows (keyOf entry) = false :=
          (hasKey_eq_false_iff_rowsWithKey keyOf rows (keyOf entry)).mpr (hk ▸ hnil)
        rw [hfalse] at hhk
        exact Bool.false_ne_true hhk
      · rw [hx, List.map_cons, List.map_nil]
        have hxe : keyOf x = keyOf entry := hxk.trans hk
        simp [hxe]
    · rw [if_neg hk]
      refine Eq.trans (List.map_congr_left ?_) (List.map_id _)
      intro x hxmem
      have hxk : keyOf x = k := ((mem_rowsWithKey keyOf rows k x).mp hxmem).2
      have hne : ¬ keyOf x = keyOf entry := by
        rw [hxk]
        exact hk
      simp [hne]
  · have hfalse : hasKey keyOf rows (keyOf entry) = false := by
      cases h : hasKey keyOf rows (keyOf entry)
      · rfl
      · exact absurd h hhk
    have hmerge : sessionMerge keyOf entry rows = rows ++ [entry] := by
      rw [sessionMerge, if_neg hhk]
    rw [hasKey_eq_false_iff] at hfalse
    rw [hmerge, rowsWithKey, List.filter_append]
    by_cases hk : k = keyOf entry
    · rw [if_pos hk]
      have h1 : rows.filter (fun e => decide (keyOf e = k)) = [] := by
        rw [List.filter_eq_nil_iff]
        intro e he
        simp only [decide_eq_true_eq]
        rw [hk]
        exact hfalse e he
      rw [h1, List.nil_append]
      simp [hk]
    · rw [if_neg hk]
      have h2 : List.filter (fun e => decide (keyOf e = k)) [entry] = [] := by
        have hne : ¬ keyOf entry = k := fun h => hk h.symm
        simp [hne]
      rw [h2, List.append_nil, rowsWithKey]

theorem keysNodup_sessionMerge {E K : Type} [DecidableEq K] (keyOf : E → K) (entry : E)
    (rows : List E) (hnd : keysNodup keyOf rows) :
    keysNodup keyOf (sessionMerge keyOf entry rows) := by
  unfold sessionMerge
  by_cases hhk : hasKey keyOf rows (keyOf entry) = true
  · rw [if_pos hhk]
    rw [keysNodup, List.map_map]
    have : rows.map (keyOf ∘ fun e => if keyOf e = keyOf entry then entry else e) =
        rows.map keyOf := by
      apply List.map_congr_left
      intro a _
      by_cases h : keyOf a = keyOf entry
      · simp [Function.comp, h]
      · simp [Function.comp, h]
    rw [this]
    exact hnd
  · rw [if_neg hhk]
    have hfalse : hasKey keyOf rows (keyOf entry) = false := by
      cases h : hasKey keyOf rows (keyOf entry)
      · rfl
      · exact absurd h hhk
    rw [hasKey_eq_false_iff] at hfalse
    rw [keysNodup, List.map_append, List.nodup_append]
    refine ⟨hnd, List.nodup_singleton _, ?_⟩
    simp only [List.map_cons, List.map_nil, List.disjoint_singleton]
    intro hmem
    rcases List.mem_map.mp hmem with ⟨e, he, hek⟩
    exact hfalse e he hek

theorem keysNodup_filter {E K : Type} (keyOf : E → K) (p : E → Bool) (rows : List E)
    (hnd : keysNodup keyOf rows) : keysNodup keyOf (rows.filter p) := by
  exact List.Nodup.sublist (List.Sublist.map keyOf (List.filter_sublist rows)) hnd

theorem rowsWithKey_filter {E K : Type} [DecidableEq K] (keyOf : E → K) (p : E → Bool)
    (rows : List E) (k : K) :
    rowsWithKey keyOf (rows.filter p) k = (rowsWithKey keyOf rows k).filter p := by
  rw [rowsWithKey, rowsWithKey, List.filter_filter, List.filter_filter]
  exact List.filter_congr (fun e _ => Bool.and_comm _ _)

theorem dbGetitem_of_single {E K V : Type} [DecidableEq K] (keyOf : E → K) (valOf : E → V)
    (rows : List E) (k : K) (e : E) (h : rowsWithKey keyOf rows k = [e]) :
    dbGetitem keyOf valOf true rows k = .ok (valOf e) := by
  simp [dbGetitem, queryOne, h]

theorem dbGetitem_of_nil {E K V : Type} [DecidableEq K] (keyOf : E → K) (valOf : E → V)
    (rows : List E) (k : K) (h : rowsWithKey keyOf rows k = []) :
    dbGetitem keyOf valOf true rows k = .error (.keyError k) := by
  simp [dbGetitem, queryOne, h]

theorem dbGetitem_unavail {E K V : Type} [DecidableEq K] (keyOf : E → K) (valOf : E → V)
    (rows : List E) (k : K) :
    dbGetitem keyOf valOf false rows k = .error (.keyError k) := by
  simp [dbGetitem, queryOne]

theorem dbContains_of_single {E K : Type} [DecidableEq K] (keyOf : E → K) (rows : List E)
    (k : K) (e : E) (h : rowsWithKey keyOf rows k = [e]) :
    dbContains keyOf true rows k = .ok true := by
  simp [dbContains, h]

theorem dbContains_of_nil {E K : Type} [DecidableEq K] (keyOf : E → K) (rows : List E) (k : K)
    (h : rowsWithKey keyOf rows k = []) :
    dbContains keyOf true rows k = .ok false := by
  simp [dbContains, h]

theorem dbContains_unavail {E K : Type} [DecidableEq K] (keyOf : E → K) (rows : List E)
    (k : K) : dbContains keyOf false rows k = .error .operationalError := by
  simp [dbContains]

theorem dbDelitem_of_single {E K : Type} [DecidableEq K] (keyOf : E → K) (rows : List E)
    (k : K) (e : E) (h : rowsWithKey keyOf rows k = [e]) :
    dbDelitem keyOf true rows k = .ok (rows.filter (fun x => decide (¬ keyOf x = k))) := by
  simp [dbDelitem, queryOne, h]

theorem dbDelitem_of_nil {E K : Type} [DecidableEq K] (keyOf : E → K) (rows : List E) (k : K)
    (h : rowsWithKey keyOf rows k = []) :
    dbDelitem keyOf true rows k = .error (.keyError k) := by
  simp [dbDelitem, queryOne, h]

theorem dbDelitem_unavail {E K : Type} [DecidableEq K] (keyOf : E → K) (rows : List E)
    (k : K) : dbDelitem keyOf false rows k = .error (.keyError k) := by
  simp [dbDelitem, queryOne]

theorem mem_dbKeys_iff {E K : Type} [DecidableEq K] (keyOf : E → K) (rows : List E) (k : K) :
    k ∈ dbKeys keyOf rows ↔ rowsWithKey keyOf rows k ≠ [] := by
  rw [dbKeys]
  constructor
  · intro hmem hnil
    rcases List.mem_map.mp hmem with ⟨e, he, hek⟩
    rw [rowsWithKey_eq_nil_iff] at hnil
    exact hnil e he hek
  · intro hne
    rcases List.exists_mem_of_ne_nil _ hne with ⟨e, he⟩
    rw [mem_rowsWithKey] at he
    exact List.mem_map.mpr ⟨e, he.1, he.2⟩

/-! Lemmas about the keyword-argument sort of the canonicalizer. -/

theorem strLtB_trichotomy : ∀ x y : List Char, x = y ∨ strLtB x y = true ∨ strLtB y x = true
  | [], [] => Or.inl rfl
  | [], _ :: _ => Or.inr (Or.inl rfl)
  | _ :: _, [] => Or.inr (Or.inr rfl)
  | a :: as, b :: bs => by
    rcases lt_trichotomy a b with h | h | h
    · refine Or.inr (Or.inl ?_)
      simp [strLtB]
      exact Or.inl h
    · subst h
      rcases strLtB_trichotomy as bs with h2 | h2 | h2
      · subst h2
        exact Or.inl rfl
      · refine Or.inr (Or.inl ?_)
        simp [strLtB, h2]
      · refine Or.inr (Or.inr ?_)
        simp [strLtB, h2]
    · refine Or.inr (Or.inr ?_)
      simp [strLtB]
      exact Or.inl h

theorem strLtB_asymm : ∀ x y : List Char, strLtB x y = true → strLtB y x = true → False
  | [], [], h1, _ => by simp [strLtB] at h1
  | [], _ :: _, _, h2 => by simp [strLtB] at h2
  | _ :: _, [], h1, _ => by simp [strLtB] at h1
  | a :: as, b :: bs, h1, h2 => by
    simp [strLtB] at h1 h2
    rcases h1 with h1 | ⟨hab, h1⟩
    · rcases h2 with h2 | ⟨hba, h2⟩
      · exact absurd h2 (lt_asymm h1)
      · rw [hba] at h1
        exact lt_irrefl _ h1
    · subst hab
      rcases h2 with h2 | ⟨_, h2⟩
      · exact lt_irrefl _ h2
      · exact strLtB_asymm as bs h1 h2

theorem strLtB_trans : ∀ x y z : List Char,
    strLtB x y = true → strLtB y z = true → strLtB x z = true
  | _, y, [], _, h2 => by simp [strLtB] at h2
  | [], _, _ :: _, _, _ => by simp [strLtB]
  | _ :: _, [], _, h1, _ => by simp [strLtB] at h1
  | a :: as, b :: bs, c :: cs, h1, h2 => by
    simp [strLtB] at h1 h2 ⊢
    rcases h1 with h1 | ⟨hab, h1⟩
    · rcases h2 with h2 | ⟨hbc, h2⟩
      · exact Or.inl (lt_trans h1 h2)
      · subst hbc
        exact Or.inl h1
    · subst hab
      rcases h2 with h2 | ⟨hbc, h2⟩
      · exact Or.inl h2
      · subst hbc
        exact Or.inr ⟨rfl, strLtB_trans as bs cs h1 h2⟩

theorem pairLeB_total (a b : String × KElem) : pairLeB a b = true ∨ pairLeB b a = true := by
  rcases strLtB_trichotomy a.1.data b.1.data with h | h | h
  · refine Or.inl ?_
    have : a.1 = b.1 := String.ext h
    simp [pairLeB, this]
  · refine Or.inl ?_
    simp [pairLeB, h]
  · refine Or.inr ?_
    simp [pairLeB, h]

theorem pairLeB_trans (a b c : String × KElem) (h1 : pairLeB a b = true)
    (h2 : pairLeB b c = true) : pairLeB a c = true := by
  simp [pairLeB] at h1 h2 ⊢
  rcases h1 with h1 | h1
  · rcases h2 with h2 | h2
    · exact Or.inl (h1.trans h2)
    · rw [h1]
      exact Or.inr h2
  · rcases h2 with h2 | h2
    · rw [← h2]
      exact Or.inr h1
    · exact Or.inr (strLtB_trans _ _ _ h1 h2)

theorem sorted_strict_of_sorted_le (l : List (String × KElem))
    (hs : List.Sorted (fun a b => pairLeB a b = true) l) (hnd : (l.map Prod.fst).Nodup) :
    List.Sorted (fun a b : String × KElem => strLtB a.1.data b.1.data = true) l := by
  have hne : List.Pairwise (fun a b : String × KElem => a.1 ≠ b.1) l :=
    List.pairwise_map.mp hnd
  refine (List.Pairwise.and hs hne).imp ?_
  intro a b hab
  rcases hab with ⟨hle, hne2⟩
  simp [pairLeB] at hle
  rcases hle with h | h
  · exact absurd h hne2
  · exact h

theorem sortPairs_perm_invariant (kw1 kw2 : List (String × KElem)) (hperm : kw1.Perm kw2)
    (hnd : (kw1.map Prod.fst).Nodup) : sortPairs kw1 = sortPairs kw2 := by
  haveI : IsTotal (String × KElem) (fun a b => pairLeB a b = true) := ⟨pairLeB_total⟩
  haveI : IsTrans (String × KElem) (fun a b => pairLeB a b = true) := ⟨pairLeB_trans⟩
  haveI : IsAntisymm (String × KElem) (fun a b : String × KElem =>
      strLtB a.1.data b.1.data = true) := ⟨fun a b h1 h2 => (strLtB_asymm _ _ h1 h2).elim⟩
  have p1 := List.perm_insertionSort (fun a b => pairLeB a b = true) kw1
  have p2 := List.perm_insertionSort (fun a b => pairLeB a b = true) kw2
  have s1 := List.sorted_insertionSort (fun a b => pairLeB a b = true) kw1
  have s2 := List.sorted_insertionSort (fun a b => pairLeB a b = true) kw2
  have hnd2 : (kw2.map Prod.fst).Nodup := ((hperm.map Prod.fst)).nodup hnd
  have hnd1s : ((List.insertionSort (fun a b => pairLeB a b = true) kw1).map Prod.fst).Nodup :=
    ((p1.map Prod.fst).symm).nodup hnd
  have hnd2s : ((List.insertionSort (fun a b => pairLeB a b = true) kw2).map Prod.fst).Nodup :=
    ((p2.map Prod.fst).symm).nodup hnd2
  have hp : (List.insertionSort (fun a b => pairLeB a b = true) kw1).Perm
      (List.insertionSort (fun a b => pairLeB a b = true) kw2) :=
    p1.trans (hperm.trans p2.symm)
  exact List.eq_of_perm_of_sorted hp (sorted_strict_of_sorted_le _ s1 hnd1s)
    (sorted_strict_of_sorted_le _ s2 hnd2s)

theorem to_tuple_perm_invariant (args : List KElem) (kw1 kw2 : List (String × KElem))
    (hperm : kw1.Perm kw2) (hnd : (kw1.map Prod.fst).Nodup) :
    to_tuple args kw1 = to_tuple args kw2 := by
  cases kw1 with
  | nil =>
    have h2 : kw2 = [] := hperm.symm.eq_nil
    subst h2
    rfl
  | cons a l =>
    cases kw2 with
    | nil => exact absurd hperm.eq_nil (by simp)
    | cons b m =>
      simp only [to_tuple]
      rw [sortPairs_perm_invariant _ _ hperm hnd]

theorem dbDelitem_ok_eq {E K : Type} [DecidableEq K] (keyOf : E → K) (avail : Bool)
    (rows : List E) (k : K) (r : List E) (h : dbDelitem keyOf avail rows k = .ok r) :
    r = rows.filter (fun e => decide (¬ keyOf e = k)) := by
  rw [dbDelitem] at h
  cases hq : queryOne keyOf avail rows k <;> rw [hq] at h
  · exact (Except.ok.inj h).symm
  · exact Except.noConfusion h
  · exact Except.noConfusion h
  · exact Except.noConfusion h

theorem keysNodup_dbPop {E K V : Type} [DecidableEq K] (keyOf : E → K) (valOf : E → V)
    (avail : Bool) (rows : List E) (k : K) (p : Option V) (vr : V) (rows2 : List E)
    (hnd : keysNodup keyOf rows) (h : dbPop keyOf valOf avail rows k p = .ok (vr, rows2)) :
    keysNodup keyOf rows2 := by
  rw [dbPop] at h
  cases hg : dbGetitem keyOf valOf avail rows k with
  | ok v =>
    rw [hg] at h
    cases hd : dbDelitem keyOf avail rows k with
    | ok r =>
      rw [hd] at h
      simp at h
      rw [← h.2]
      rw [dbDelitem_ok_eq keyOf avail rows k r hd]
      exact keysNodup_filter keyOf _ rows hnd
    | error e =>
      rw [hd] at h
      simp at h
  | error e =>
    rw [hg] at h
    cases e with
    | keyError k2 =>
      cases p with
      | none => simp at h
      | some d =>
        simp at h
        rw [← h.2]
        exact hnd
    | operationalError => simp at h
    | multipleResultsFound => simp at h

theorem keysNodup_dbUpdate {E K V : Type} [DecidableEq K] (keyOf : E → K) (mk : K → V → E)
    (rows : List E) (data : List (K × V)) (hnd : keysNodup keyOf rows) :
    keysNodup keyOf (dbUpdate keyOf mk rows data) := by
  induction data generalizing rows with
  | nil => exact hnd
  | cons a l ih =>
    have h1 : dbUpdate keyOf mk rows (a :: l) =
        dbUpdate keyOf mk (sessionMerge keyOf (mk a.1 a.2) rows) l := rfl
    rw [h1]
    exact ih _ (keysNodup_sessionMerge _ _ _ hnd)

/-! Settling the claims. -/

/-- C2: on the base cache, immediately after set(k, v), get(k) returns v and
contains(k) is true (under the unique-key invariant of the table). -/
theorem C2_set_get_contains {K V : Type} [DecidableEq K] (rows : List (BEntry K V)) (k : K)
    (v : V) (hnd : keysNodup Prod.fst rows) :
    baseGetitem true (baseSetitem rows k v) k = .ok v ∧
    baseContains true (baseSetitem rows k v) k = .ok true := by
  have h : rowsWithKey Prod.fst (baseSetitem rows k v) k = [(k, v)] := by
    rw [baseSetitem, rowsWithKey_sessionMerge Prod.fst (k, v) rows hnd k]
    simp
  constructor
  · exact dbGetitem_of_single Prod.fst Prod.snd _ k (k, v) h
  · exact dbContains_of_single Prod.fst _ k (k, v) h

/-- Witness for C2 at a concrete store. -/
theorem C2_witness :
    keysNodup Prod.fst ([(1, 10)] : List (BEntry Nat Nat)) ∧
    baseGetitem true (baseSetitem [(1, 10)] 2 20) 2 = .ok 20 ∧
    baseContains true (baseSetitem [(1, 10)] 2 20) 2 = .ok true := by
  refine ⟨by decide, ?_, ?_⟩
  · exact (C2_set_get_contains [(1, 10)] 2 20 (by decide)).1
  · exact (C2_set_get_contains [(1, 10)] 2 20 (by decide)).2

/-- C3: when k has no row, getitem and delitem both fail with KeyError(k),
and the same KeyError is produced whether the cause is zero matching rows
(storage available) or transient storage unavailability; the storage error
type does not leak through point lookups or deletes. -/
theorem C3_missing_key_errors {K V : Type} [DecidableEq K] (avail : Bool)
    (rows : List (BEntry K V)) (k : K) (hmiss : hasKey Prod.fst rows k = false) :
    baseGetitem avail rows k = .error (.keyError k) ∧
    baseDelitem avail rows k = .error (.keyError k) := by
  cases avail
  · exact ⟨dbGetitem_unavail Prod.fst Prod.snd rows k, dbDelitem_unavail Prod.fst rows k⟩
  · have h : rowsWithKey Prod.fst rows k = [] :=
      (hasKey_eq_false_iff_rowsWithKey Prod.fst rows k).mp hmiss
    exact ⟨dbGetitem_of_nil Prod.fst Prod.snd rows k h, dbDelitem_of_nil Prod.fst rows k h⟩

/-- Witness for C3: both causes (no row with storage up, storage down) at a
concrete store. -/
theorem C3_witness :
    hasKey Prod.fst ([(1, 10)] : List (BEntry Nat Nat)) 2 = false ∧
    baseGetitem true ([(1, 10)] : List (BEntry Nat Nat)) 2 = .error (.keyError 2) ∧
    baseDelitem true ([(1, 10)] : List (BEntry Nat Nat)) 2 = .error (.keyError 2) ∧
    baseGetitem false ([(1, 10)] : List (BEntry Nat Nat)) 2 = .error (.keyError 2) ∧
    baseDelitem false ([(1, 10)] : List (BEntry Nat Nat)) 2 = .error (.keyError 2) := by
  refine ⟨by decide, ?_, ?_, ?_, ?_⟩
  · exact (C3_missing_key_errors true [(1, 10)] 2 (by decide)).1
  · exact (C3_missing_key_errors true [(1, 10)] 2 (by decide)).2
  · exact (C3_missing_key_errors false [(1, 10)] 2 (by decide)).1
  · exact (C3_missing_key_errors false [(1, 10)] 2 (by decide)).2

/-- C7 (amended): contains(k) is true iff a row with key k exists and never
raises while the storage layer is available; but under transient storage
unavailability the OperationalError propagates out of contains, because
DBCache.__contains__ has no try/except, unlike get and delete. -/
theorem C7_contains_amended {K V : Type} [DecidableEq K] (rows : List (BEntry K V)) (k : K)
    (hnd : keysNodup Prod.fst rows) :
    baseContains true rows k = .ok (hasKey Prod.fst rows k) ∧
    baseContains false rows k = .error .operationalError := by
  constructor
  · rcases rowsWithKey_nodup_cases Prod.fst rows hnd k with hnil | ⟨e, he, _⟩
    · have hk : hasKey Prod.fst rows k = false :=
        (hasKey_eq_false_iff_rowsWithKey Prod.fst rows k).mpr hnil
      rw [hk]
      exact dbContains_of_nil Prod.fst rows k hnil
    · have hk : hasKey Prod.fst rows k = true := by
        cases hh : hasKey Prod.fst rows k
        · rw [(hasKey_eq_false_iff_rowsWithKey Prod.fst rows k).mp hh] at he
          exact List.noConfusion he
        · rfl
      rw [hk]
      exact dbContains_of_single Prod.fst rows k e he
  · exact dbContains_unavail Prod.fst rows k

/-- C7 counterexample: under transient storage unavailability, contains on a
missing key does raise — the storage error crosses the contains call
unchanged rather than being reported as a boolean. -/
theorem C7_counterexample :
    baseContains false ([] : List (BEntry Nat Nat)) 0 = .error .operationalError := by
  rfl

/-- Witness for the amended C7 at a concrete store. -/
theorem C7_witness :
    keysNodup Prod.fst ([(1, 10)] : List (BEntry Nat Nat)) ∧
    baseContains true ([(1, 10)] : List (BEntry Nat Nat)) 1 =
      .ok (hasKey Prod.fst ([(1, 10)] : List (BEntry Nat Nat)) 1) ∧
    baseContains false ([(1, 10)] : List (BEntry Nat Nat)) 1 = .error .operationalError := by
  refine ⟨by decide, ?_, ?_⟩
  · exact (C7_contains_amended [(1, 10)] 1 (by decide)).1
  · exact (C7_contains_amended [(1, 10)] 1 (by decide)).2

/-- C8: pop returns the present value and removes the row; on an absent key
it raises KeyError when no default was supplied, and returns the supplied
default leaving the store unmodified otherwise. -/
theorem C8_pop {K V : Type} [DecidableEq K] (rows : List (BEntry K V)) (k : K) (v d : V)
    (hnd : keysNodup Prod.fst rows) :
    (baseGetitem true rows k = .ok v →
      basePop true rows k none = .ok (v, rows.filter (fun e => decide (¬ e.1 = k))) ∧
      basePop true rows k (some d) = .ok (v, rows.filter (fun e => decide (¬ e.1 = k)))) ∧
    (hasKey Prod.fst rows k = false →
      basePop true rows k none = .error (.keyError k) ∧
      basePop true rows k (some d) = .ok (d, rows)) := by
  constructor
  · intro hget
    have hget2 : dbGetitem Prod.fst Prod.snd true rows k = .ok v := hget
    have hdel : dbDelitem Prod.fst true rows k =
        .ok (rows.filter (fun e => decide (¬ e.1 = k))) := by
      rcases rowsWithKey_nodup_cases Prod.fst rows hnd k with hnil | ⟨e, he, _⟩
      · rw [dbGetitem_of_nil Prod.fst Prod.snd rows k hnil] at hget2
        exact Except.noConfusion hget2
      · exact dbDelitem_of_single Prod.fst rows k e he
    constructor
    · show dbPop Prod.fst Prod.snd true rows k none = _
      simp [dbPop, hget2, hdel]
    · show dbPop Prod.fst Prod.snd true rows k (some d) = _
      simp [dbPop, hget2, hdel]
  · intro hmiss
    have hnil : rowsWithKey Prod.fst rows k = [] :=
      (hasKey_eq_false_iff_rowsWithKey Prod.fst rows k).mp hmiss
    have hget2 : dbGetitem Prod.fst Prod.snd true rows k = .error (.keyError k) :=
      dbGetitem_of_nil Prod.fst Prod.snd rows k hnil
    constructor
    · show dbPop Prod.fst Prod.snd true rows k none = _
      simp [dbPop, hget2]
    · show dbPop Prod.fst Prod.snd true rows k (some d) = _
      simp [dbPop, hget2]

/-- Witness for C8 at a concrete store: one present key, one absent key. -/
theorem C8_witness :
    keysNodup Prod.fst ([(3, 7)] : List (BEntry Nat Nat)) ∧
    basePop true ([(3, 7)] : List (BEntry Nat Nat)) 3 none =
      .ok (7, ([(3, 7)] : List (BEntry Nat Nat)).filter (fun e => decide (¬ e.1 = 3))) ∧
    basePop true ([(3, 7)] : List (BEntry Nat Nat)) 4 none = .error (.keyError 4) ∧
    basePop true ([(3, 7)] : List (BEntry Nat Nat)) 4 (some 9) =
      .ok (9, [(3, 7)]) := by
  refine ⟨by decide, ?_, ?_, ?_⟩
  · exact ((C8_pop [(3, 7)] 3 7 9 (by decide)).1 (by rfl)).1
  · exact ((C8_pop [(3, 7)] 4 7 9 (by decide)).2 (by decide)).1
  · exact ((C8_pop [(3, 7)] 4 7 9 (by decide)).2 (by decide)).2

/-- C10: the default parameter of DBCache.get itself defaults to None, so for an
absent key a defaulted call returns None and never raises, for both
underlying causes, while subscript lookup raises KeyError; and the defaulted
read never propagates an error for any supplied default. -/
theorem C10_get_default_none {K V : Type} [DecidableEq K] (avail : Bool)
    (rows : List (BEntry K V)) (k : K) (hmiss : hasKey Prod.fst rows k = false) :
    baseGet avail rows k none = .ok none ∧
    baseGetitem avail rows k = .error (.keyError k) ∧
    ∀ d : Option V, (baseGet avail rows k d).isOk = true := by
  have hget : baseGetitem avail rows k = .error (.keyError k) := by
    cases avail
    · exact dbGetitem_unavail Prod.fst Prod.snd rows k
    · exact dbGetitem_of_nil Prod.fst Prod.snd rows k
        ((hasKey_eq_false_iff_rowsWithKey Prod.fst rows k).mp hmiss)
  have hget2 : dbGetitem Prod.fst Prod.snd avail rows k = .error (.keyError k) := hget
  refine ⟨?_, hget, ?_⟩
  · show dbGet Prod.fst Prod.snd avail rows k none = .ok none
    simp [dbGet, hget2]
  · intro d
    show (dbGet Prod.fst Prod.snd avail rows k d).isOk = true
    simp [dbGet, hget2, Except.isOk, Except.toBool]

/-- Witness for C10 at a concrete store. -/
theorem C10_witness :
    hasKey Prod.fst ([(1, 10)] : List (BEntry Nat Nat)) 2 = false ∧
    baseGet true ([(1, 10)] : List (BEntry Nat Nat)) 2 none = .ok none ∧
    baseGetitem true ([(1, 10)] : List (BEntry Nat Nat)) 2 = .error (.keyError 2) := by
  refine ⟨by decide, ?_, ?_⟩
  · exact (C10_get_default_none true [(1, 10)] 2 (by decide)).1
  · exact (C10_get_default_none true [(1, 10)] 2 (by decide)).2.1

/-- C4: the unique-key invariant is preserved by every mutating operation
(set, delete, pop, bulk update, the TTL sweep, TTL set and TTL bulk update),
and set on a present key replaces in place: after set(k,v1); set(k,v2),
get(k) returns v2 and the second set leaves the length unchanged. -/
theorem C4_unique_key_invariant {K V : Type} [DecidableEq K] (rows : List (BEntry K V))
    (trows : List (TEntry K V)) (k : K) (v v1 v2 : V) (data : List (K × V)) (T now : Int)
    (hnd : keysNodup Prod.fst rows) (htnd : keysNodup Prod.fst trows) :
    keysNodup Prod.fst (baseSetitem rows k v) ∧
    (∀ rows2, baseDelitem true rows k = .ok rows2 → keysNodup Prod.fst rows2) ∧
    keysNodup Prod.fst (baseUpdate rows data) ∧
    (∀ p vr rows2, basePop true rows k p = .ok (vr, rows2) → keysNodup Prod.fst rows2) ∧
    keysNodup Prod.fst (ttlSweep T now trows) ∧
    keysNodup Prod.fst (ttlSetitem T now trows k v) ∧
    keysNodup Prod.fst (ttlUpdate T now trows data) ∧
    baseGetitem true (baseSetitem (baseSetitem rows k v1) k v2) k = .ok v2 ∧
    baseLen (baseSetitem (baseSetitem rows k v1) k v2) = baseLen (baseSetitem rows k v1) := by
  have hnd1 : keysNodup Prod.fst (baseSetitem rows k v1) :=
    keysNodup_sessionMerge Prod.fst (k, v1) rows hnd
  have hrk1 : rowsWithKey Prod.fst (baseSetitem rows k v1) k = [(k, v1)] := by
    rw [baseSetitem, rowsWithKey_sessionMerge Prod.fst (k, v1) rows hnd k]
    simp
  have hkey1 : hasKey Prod.fst (baseSetitem rows k v1) k = true := by
    cases hh : hasKey Prod.fst (baseSetitem rows k v1) k
    · rw [(hasKey_eq_false_iff_rowsWithKey Prod.fst _ k).mp hh] at hrk1
      exact List.noConfusion hrk1
    · rfl
  have htnds : keysNodup Prod.fst (ttlSweep T now trows) :=
    keysNodup_filter Prod.fst _ trows htnd
  refine ⟨keysNodup_sessionMerge Prod.fst (k, v) rows hnd, ?_, ?_, ?_, htnds, ?_, ?_, ?_, ?_⟩
  · intro rows2 h
    rw [dbDelitem_ok_eq Prod.fst true rows k rows2 h]
    exact keysNodup_filter Prod.fst _ rows hnd
  · exact keysNodup_dbUpdate Prod.fst _ rows data hnd
  · intro p vr rows2 h
    exact keysNodup_dbPop Prod.fst Prod.snd true rows k p vr rows2 hnd h
  · exact keysNodup_sessionMerge Prod.fst (k, v, now) _ htnds
  · exact keysNodup_dbUpdate Prod.fst _ _ data htnds
  · have hrk2 : rowsWithKey Prod.fst (baseSetitem (baseSetitem rows k v1) k v2) k =
        [(k, v2)] := by
      rw [baseSetitem, rowsWithKey_sessionMerge Prod.fst (k, v2) _ hnd1 k]
      simp
    exact dbGetitem_of_single Prod.fst Prod.snd _ k (k, v2) hrk2
  · have hmerge : baseSetitem (baseSetitem rows k v1) k v2 =
        (baseSetitem rows k v1).map
          (fun e => if Prod.fst e = Prod.fst ((k, v2) : BEntry K V) then (k, v2) else e) := by
      rw [baseSetitem, sessionMerge, if_pos hkey1]
    rw [hmerge]
    show dbLen _ = dbLen _
    rw [dbLen, dbLen, List.length_map]

/-- Witness for C4 at a concrete store. -/
theorem C4_witness :
    keysNodup Prod.fst ([(1, 10)] : List (BEntry Nat Nat)) ∧
    keysNodup Prod.fst ([(1, 10, 5)] : List (TEntry Nat Nat)) ∧
    baseGetitem true (baseSetitem (baseSetitem [(1, 10)] 2 21) 2 22) 2 = .ok 22 ∧
    baseLen (baseSetitem (baseSetitem [(1, 10)] 2 21) 2 22) =
      baseLen (baseSetitem [(1, 10)] 2 21) := by
  refine ⟨by decide, by decide, ?_, ?_⟩
  · exact (C4_unique_key_invariant [(1, 10)] [(1, 10, 5)] 2 0 21 22 [] 7 9
      (by decide) (by decide)).2.2.2.2.2.2.2.1
  · exact (C4_unique_key_invariant [(1, 10)] [(1, 10, 5)] 2 0 21 22 [] 7 9
      (by decide) (by decide)).2.2.2.2.2.2.2.2

/-- C1 (amended): an entry written through the TTL cache at time t0 with ttl
T is returned by every public read (get, contains, key iteration; the length
counts exactly the iterated keys) performed at any now with
t0 <= now <= t0 + T, and is absent — get raises KeyError, contains is false,
the key is excluded from iteration and hence from the length — for every
public operation at now > t0 + T; every public operation runs the sweep
first, which deletes exactly the rows with created strictly below
now - ttl. -/
theorem C1_ttl_window {K V : Type} [DecidableEq K] (T t0 now : Int)
    (rows : List (TEntry K V)) (k : K) (v : V) (hnd : keysNodup Prod.fst rows)
    (_h0 : t0 ≤ now) :
    (now ≤ t0 + T →
      ttlGetitem T now (ttlSetitem T t0 rows k v) k = .ok v ∧
      ttlContains T now (ttlSetitem T t0 rows k v) k = .ok true ∧
      k ∈ ttlKeys T now (ttlSetitem T t0 rows k v)) ∧
    (t0 + T < now →
      ttlGetitem T now (ttlSetitem T t0 rows k v) k = .error (.keyError k) ∧
      ttlContains T now (ttlSetitem T t0 rows k v) k = .ok false ∧
      k ∉ ttlKeys T now (ttlSetitem T t0 rows k v)) ∧
    ttlLen T now (ttlSetitem T t0 rows k v) =
      (ttlKeys T now (ttlSetitem T t0 rows k v)).length := by
  have hnd0 : keysNodup Prod.fst (ttlSweep T t0 rows) := keysNodup_filter Prod.fst _ rows hnd
  have hrk : rowsWithKey Prod.fst (ttlSetitem T t0 rows k v) k = [(k, v, t0)] := by
    rw [ttlSetitem, rowsWithKey_sessionMerge Prod.fst (k, v, t0) _ hnd0 k]
    simp
  have hswk : rowsWithKey Prod.fst (ttlSweep T now (ttlSetitem T t0 rows k v)) k =
      ([(k, v, t0)] : List (TEntry K V)).filter (fun e => decide (¬ tCreated e < now - T)) := by
    rw [show ttlSweep T now (ttlSetitem T t0 rows k v) =
        (ttlSetitem T t0 rows k v).filter (fun e => decide (¬ tCreated e < now - T)) from rfl]
    rw [rowsWithKey_filter, hrk]
  refine ⟨?_, ?_, ?_⟩
  · intro hnow
    have hsurv : ([(k, v, t0)] : List (TEntry K V)).filter
        (fun e => decide (¬ tCreated e < now - T)) = [(k, v, t0)] := by
      simp [tCreated]
      omega
    rw [hsurv] at hswk
    refine ⟨?_, ?_, ?_⟩
    · exact dbGetitem_of_single Prod.fst tVal _ k (k, v, t0) hswk
    · exact dbContains_of_single Prod.fst _ k (k, v, t0) hswk
    · exact (mem_dbKeys_iff Prod.fst _ k).mpr (by simp [hswk])
  · intro hnow
    have hgone : ([(k, v, t0)] : List (TEntry K V)).filter
        (fun e => decide (¬ tCreated e < now - T)) = [] := by
      simp [tCreated]
      omega
    rw [hgone] at hswk
    refine ⟨?_, ?_, ?_⟩
    · exact dbGetitem_of_nil Prod.fst tVal _ k hswk
    · exact dbContains_of_nil Prod.fst _ k hswk
    · intro hmem
      exact ((mem_dbKeys_iff Prod.fst _ k).mp hmem) hswk
  · show dbLen _ = (dbKeys Prod.fst _).length
    rw [dbLen, dbKeys, List.length_map]

/-- C1 counterexample: with ttl 1, an entry written at time 0 and read at
now = 1 = t0 + ttl is still returned by get, contains, iteration and the
length, while the claim requires it to be absent for every read at
now >= t0 + ttl: the sweep deletes only rows with created strictly below
now - ttl. -/
theorem C1_counterexample :
    ttlGetitem (K := Nat) (V := Nat) 1 1 (ttlSetitem 1 0 [] 0 5) 0 = .ok 5 ∧
    ttlContains (K := Nat) (V := Nat) 1 1 (ttlSetitem 1 0 [] 0 5) 0 = .ok true ∧
    (0 : Nat) ∈ ttlKeys (K := Nat) (V := Nat) 1 1 (ttlSetitem 1 0 [] 0 5) ∧
    ttlLen (K := Nat) (V := Nat) 1 1 (ttlSetitem 1 0 [] 0 5) = 1 :=
  ⟨rfl, rfl, by decide, rfl⟩

/-- Witness for the amended C1 at concrete times: ttl 10, entry written at
100, read at 105 (inside the window) and at 111 (outside). -/
theorem C1_witness :
    keysNodup Prod.fst ([] : List (TEntry Nat Nat)) ∧
    (100 : Int) ≤ 105 ∧ (105 : Int) ≤ 100 + 10 ∧ (100 : Int) + 10 < 111 ∧
    ttlGetitem 10 105 (ttlSetitem 10 100 ([] : List (TEntry Nat Nat)) 0 5) 0 = .ok 5 ∧
    ttlGetitem 10 111 (ttlSetitem 10 100 ([] : List (TEntry Nat Nat)) 0 5) 0 =
      .error (.keyError 0) := by
  refine ⟨by decide, by decide, by decide, by decide, ?_, ?_⟩
  · exact ((C1_ttl_window 10 100 105 [] 0 5 (by decide) (by decide)).1 (by decide)).1
  · exact ((C1_ttl_window 10 100 111 [] 0 5 (by decide) (by decide)).2.1 (by decide)).1

theorem survives_iff (pre2 cur : String) (e : DirEntry) :
    (!(globOldDb pre2 e.name && cleanupDeletes cur e)) = true ↔
      ¬(globOldDb pre2 e.name = true ∧ e.name ≠ cur ∧
        e.isFile = true ∧ e.statError = false ∧ e.unlinkError = false) := by
  constructor
  · intro hb hcond
    rcases hcond with ⟨hg, hne, hf, hs, hu⟩
    rw [cleanupDeletes, hg, hf, hs, hu] at hb
    simp [hne] at hb
  · intro hn
    cases hb : (globOldDb pre2 e.name && cleanupDeletes cur e)
    · rfl
    · exfalso
      apply hn
      rw [Bool.and_eq_true] at hb
      rcases hb with ⟨hg, hd⟩
      rw [cleanupDeletes, Bool.and_eq_true, Bool.and_eq_true, Bool.and_eq_true] at hd
      rcases hd with ⟨⟨⟨hne, hs⟩, hf⟩, hu⟩
      simp at hs hu
      exact ⟨hg, of_decide_eq_true hne, hf, hs, hu⟩

/-- C5 (amended): with no explicit db_path and preserve_old false, the
construction-time cleanup removes exactly those directory entries that are
regular files, whose name matches the rotation glob — it starts with the
prefix followed by a dot, ends with .db, and the two parts do not overlap —
and differs from the file name of the current bucket, and for which neither the
stat nor the unlink fails; a per-file failure is non-fatal and the file
merely survives while the scan continues; subdirectories and non-matching
names are untouched.  With preserve_old true, or with an explicit db_path,
no file is deleted. -/
theorem C5_rotation_cleanup (pre stamp : String) (dbPath : Option String)
    (dir : List DirEntry) (e : DirEntry) :
    (e ∈ prep_cleanup pre false none stamp dir ↔
      e ∈ dir ∧ ¬(globOldDb (pre ++ ".") e.name = true ∧ e.name ≠ currentDbName pre stamp ∧
        e.isFile = true ∧ e.statError = false ∧ e.unlinkError = false)) ∧
    prep_cleanup pre true dbPath stamp dir = dir ∧
    (∀ p, prep_cleanup pre false (some p) stamp dir = dir) := by
  refine ⟨?_, ?_, fun p => rfl⟩
  · rw [show prep_cleanup pre false none stamp dir =
      cleanup_old_dbs (pre ++ ".") (currentDbName pre stamp) dir from rfl]
    rw [cleanup_old_dbs, List.mem_filter]
    exact and_congr_right (fun _ => survives_iff (pre ++ ".") (currentDbName pre stamp) e)
  · cases dbPath with
    | none => rfl
    | some p => rfl

/-- C5 counterexample: with prefix p, the regular file named p.db starts
with the prefix followed by a dot, ends with .db and differs from the
current bucket file, so the claim as stated says it is deleted; but the glob
the code scans with does not match it (the leading p. and the trailing .db
overlap in the four-character name), and the file survives the cleanup. -/
theorem C5_counterexample :
    "p.".data.isPrefixOf "p.db".data = true ∧
    ".db".data.isSuffixOf "p.db".data = true ∧
    ("p.db" : String) ≠ currentDbName "p" "2026-10" ∧
    (DirEntry.mk "p.db" true false false).isFile = true ∧
    prep_cleanup "p" false none "2026-10" [DirEntry.mk "p.db" true false false] =
      [DirEntry.mk "p.db" true false false] :=
  ⟨by decide, by decide, by decide, rfl, by decide⟩

/-- Witness for the amended C5 at a concrete directory: an old generation
file is deleted, a non-matching file, a subdirectory and the current file
survive. -/
theorem C5_witness :
    (DirEntry.mk "t.old.db" true false false ∈
        prep_cleanup "t" false none "2026-10"
          [DirEntry.mk "t.old.db" true false false, DirEntry.mk "t.foo.txt" true false false] ↔
      DirEntry.mk "t.old.db" true false false ∈
          [DirEntry.mk "t.old.db" true false false, DirEntry.mk "t.foo.txt" true false false] ∧
        ¬(globOldDb ("t" ++ ".") "t.old.db" = true ∧
          ("t.old.db" : String) ≠ currentDbName "t" "2026-10" ∧
          (DirEntry.mk "t.old.db" true false false).isFile = true ∧
          (DirEntry.mk "t.old.db" true false false).statError = false ∧
          (DirEntry.mk "t.old.db" true false false).unlinkError = false)) ∧
    prep_cleanup "t" true (some "z") "2026-10"
      [DirEntry.mk "t.old.db" true false false, DirEntry.mk "t.foo.txt" true false false] =
      [DirEntry.mk "t.old.db" true false false, DirEntry.mk "t.foo.txt" true false false] ∧
    (∀ p, prep_cleanup "t" false (some p) "2026-10"
      [DirEntry.mk "t.old.db" true false false, DirEntry.mk "t.foo.txt" true false false] =
      [DirEntry.mk "t.old.db" true false false, DirEntry.mk "t.foo.txt" true false false]) :=
  C5_rotation_cleanup "t" "2026-10" (some "z")
    [DirEntry.mk "t.old.db" true false false, DirEntry.mk "t.foo.txt" true false false]
    (DirEntry.mk "t.old.db" true false false)

/-- C6: two make_key calls whose positional arguments agree after dropping
the first one and whose keyword arguments are equal as name-value mappings
(the same pairs in any order, names unique) produce equal keys, equal under
the canonical key equality, with equal hashes: the dropped receiver and the
keyword order are irrelevant. -/
theorem C6_canonical_key (args1 args2 : List KElem) (kw1 kw2 : List (String × KElem))
    (hargs : args1.tail = args2.tail) (hperm : kw1.Perm kw2)
    (hnd : (kw1.map Prod.fst).Nodup) :
    simple_noself args1 kw1 = simple_noself args2 kw2 ∧
    ckEq (simple_noself args1 kw1) (simple_noself args2 kw2) = true ∧
    (simple_noself args1 kw1).hsh = (simple_noself args2 kw2).hsh := by
  have htup : to_tuple args1.tail kw1 = to_tuple args2.tail kw2 := by
    rw [hargs]
    exact to_tuple_perm_invariant args2.tail kw1 kw2 hperm hnd
  have heq : simple_noself args1 kw1 = simple_noself args2 kw2 := by
    rw [simple_noself, simple_noself, htup]
  refine ⟨heq, ?_, by rw [heq]⟩
  rw [heq, ckEq]
  simp

/-- Witness for C6: the example given in the spec, make_key(recv, "foo", x=1, y=2)
against make_key(recv2, "foo", y=2, x=1) with distinct receivers. -/
theorem C6_witness :
    ([KElem.recvObj 0, KElem.pyStr "foo"] : List KElem).tail =
      ([KElem.recvObj 1, KElem.pyStr "foo"] : List KElem).tail ∧
    List.Perm [("x", KElem.pyInt 1), ("y", KElem.pyInt 2)]
      [("y", KElem.pyInt 2), ("x", KElem.pyInt 1)] ∧
    ckEq (simple_noself [KElem.recvObj 0, KElem.pyStr "foo"]
        [("x", KElem.pyInt 1), ("y", KElem.pyInt 2)])
      (simple_noself [KElem.recvObj 1, KElem.pyStr "foo"]
        [("y", KElem.pyInt 2), ("x", KElem.pyInt 1)]) = true ∧
    (simple_noself [KElem.recvObj 0, KElem.pyStr "foo"]
        [("x", KElem.pyInt 1), ("y", KElem.pyInt 2)]).hsh =
      (simple_noself [KElem.recvObj 1, KElem.pyStr "foo"]
        [("y", KElem.pyInt 2), ("x", KElem.pyInt 1)]).hsh := by
  refine ⟨by decide, by decide, ?_, ?_⟩
  · exact (C6_canonical_key [KElem.recvObj 0, KElem.pyStr "foo"]
      [KElem.recvObj 1, KElem.pyStr "foo"] [("x", KElem.pyInt 1), ("y", KElem.pyInt 2)]
      [("y", KElem.pyInt 2), ("x", KElem.pyInt 1)] (by decide) (by decide) (by decide)).2.1
  · exact (C6_canonical_key [KElem.recvObj 0, KElem.pyStr "foo"]
      [KElem.recvObj 1, KElem.pyStr "foo"] [("x", KElem.pyInt 1), ("y", KElem.pyInt 2)]
      [("y", KElem.pyInt 2), ("x", KElem.pyInt 1)] (by decide) (by decide) (by decide)).2.2

/-- C9: _to_tuple appends the class object as a separator between the
positional segment and the flattened sorted keyword segment exactly when at
least one keyword argument is present; consequently, when the class object
does not occur among the retained positional arguments, a key built from
positional arguments only is never equal (under the canonical key equality)
to a key built from a call that used keyword arguments. -/
theorem C9_separator (args1 args2 : List KElem) (kw : List (String × KElem))
    (hnocls : KElem.classObj ∉ args1.tail) (hkw : kw ≠ []) :
    to_tuple args1.tail [] = args1.tail ∧
    to_tuple args2.tail kw = args2.tail ++ KElem.classObj ::
      (sortPairs kw).flatMap (fun p => [KElem.pyStr p.1, p.2]) ∧
    ckEq (simple_noself args1 []) (simple_noself args2 kw) = false := by
  obtain ⟨b, m, rfl⟩ : ∃ b m, kw = b :: m := by
    cases kw with
    | nil => exact absurd rfl hkw
    | cons b m => exact ⟨b, m, rfl⟩
  refine ⟨rfl, rfl, ?_⟩
  rw [ckEq]
  rw [decide_eq_false_iff_not]
  intro hv
  have h1 : (simple_noself args1 []).vals = args1.tail := rfl
  have h2 : (simple_noself args2 (b :: m)).vals = args2.tail ++ KElem.classObj ::
      (sortPairs (b :: m)).flatMap (fun p => [KElem.pyStr p.1, p.2]) := rfl
  rw [h1, h2] at hv
  apply hnocls
  rw [hv]
  exact List.mem_append_right _ (List.mem_cons_self _ _)

/-- Witness for C9: make_key(recv, "x", 1) against make_key(recv, x=1). -/
theorem C9_witness :
    KElem.classObj ∉ ([KElem.recvObj 0, KElem.pyStr "x", KElem.pyInt 1] : List KElem).tail ∧
    ([("x", KElem.pyInt 1)] : List (String × KElem)) ≠ [] ∧
    ckEq (simple_noself [KElem.recvObj 0, KElem.pyStr "x", KElem.pyInt 1] [])
      (simple_noself [KElem.recvObj 0] [("x", KElem.pyInt 1)]) = false := by
  refine ⟨by decide, by decide, ?_⟩
  exact (C9_separator [KElem.recvObj 0, KElem.pyStr "x", KElem.pyInt 1] [KElem.recvObj 0]
    [("x", KElem.pyInt 1)] (by decide) (by decide)).2.2
